import Mathlib

/-!
Verification of the two analysis scripts of the Digital-geotechnologies
repository against their natural-language specification.

Task 1 (`OSM Task1/university_map.py`): representative points of
heterogeneous geometries, per-region containment counting of universities,
and the continuous colour scale of the choropleth.

Task 2 (`Geojson Task2/geospatial_analysis.py`): boundary resolution by
name variants, road-type diversity in a radius, and nearest-road distance.

Geometry coordinates are embedded as exact rationals.  The underlying
geometry predicates (contains, distance, buffer, intersects) are external
primitives in the source (shapely / geopandas); where a claim depends on
them they are either kept abstract (a `dist` parameter) or modelled from
the spec's own description (even-odd point-in-polygon, buffer membership
by distance), as noted on each definition.
-/

namespace UniversityMap

/-- A planar coordinate pair, as stored in a GeoJSON `coordinates` entry. -/
abbrev Coord : Type := ℚ × ℚ

/-- GeoJSON-style geometry: the tagged variant the script dispatches on via
`geometry['type']`.  `other s` stands for a geometry whose type string `s`
is none of the kinds the script handles (for example `GeometryCollection`);
`lineString` is the concrete unsupported kind the spec names. -/
inductive Geometry : Type
  | point (c : Coord)
  | polygon (rings : List (List Coord))
  | multiPolygon (polys : List (List (List Coord)))
  | lineString (coords : List Coord)
  | other (typeName : String)
deriving DecidableEq

/-- `np.mean` over a list of rationals (sum divided by length). -/
def meanQ (l : List ℚ) : ℚ := l.sum / (l.length : ℚ)

/-- `get_geometry_center`: a Point is returned unchanged; for a Polygon the
script averages the vertices of `coordinates[0]` (the outer ring); for a
MultiPolygon it averages the vertices of `coordinates[0][0]` (the outer
ring of the first constituent polygon); every other type yields `None`. -/
def get_geometry_center : Geometry → Option Coord
  | .point c => some c
  | .polygon rings =>
      let coords := rings.headD []
      some (meanQ (coords.map Prod.fst), meanQ (coords.map Prod.snd))
  | .multiPolygon polys =>
      let coords := (polys.headD []).headD []
      some (meanQ (coords.map Prod.fst), meanQ (coords.map Prod.snd))
  | .lineString _ => none
  | .other _ => none

/-- One ray-crossing test of the even-odd rule: does the horizontal ray to
the right of `p` cross the closed segment from `a` to `b`? -/
def raySegCross (p a b : Coord) : Bool :=
  (decide (a.2 > p.2) != decide (b.2 > p.2)) &&
    decide (p.1 < (b.1 - a.1) * (p.2 - a.2) / (b.2 - a.2) + a.1)

/-- Modelled from the spec: `point_in_polygon` in the source delegates to
the external geometry primitive `shapely.Polygon(...).contains(Point(...))`,
which the spec directs to treat as "a standard point-in-polygon predicate
(even-odd or winding rule)".  We model it as the standard even-odd
ray-casting rule over the vertex ring (closed by wrapping the last vertex
back to the first). -/
def point_in_polygon (p : Coord) (polygon_coords : List Coord) : Bool :=
  decide ((((polygon_coords.zip (polygon_coords.rotate 1)).countP
      (fun e => raySegCross p e.1 e.2)) % 2) = 1)

/-- A university feature: the fields of the GeoJSON feature the script
reads (a name property and a geometry). -/
structure UFeature where
  name : String
  geometry : Geometry
deriving DecidableEq

/-- An administrative-region feature: its `properties['name']` and its
geometry. -/
structure RegionF where
  name : String
  geometry : Geometry
deriving DecidableEq

/-- The ring the aggregator tests against: for a Polygon the outer ring
`coordinates[0]`; for a MultiPolygon the concatenation of `poly[0]` over
all constituent polygons; other region geometries are skipped (`continue`
in the source). -/
def region_outer_coords : Geometry → Option (List Coord)
  | .polygon rings => some (rings.headD [])
  | .multiPolygon polys => some ((polys.map (fun poly => poly.headD [])).flatten)
  | _ => none

/-- The per-university test of the aggregation loop: the university's
center exists (`if uni_center`) and lies inside the region ring. -/
def uni_matches (polygon_coords : List Coord) (u : UFeature) : Bool :=
  match get_geometry_center u.geometry with
  | some c => point_in_polygon c polygon_coords
  | none => false

/-- The value stored per region name: the count, the matched universities
in input order, and the region itself. -/
structure RegionEntry where
  count : ℕ
  universities : List UFeature
  region : RegionF
deriving DecidableEq

/-- Python dict assignment `region_counts[region_name] = {...}`: when the
key is already present its value is replaced in place (the earlier entry's
position is kept), otherwise the pair is appended in insertion order. -/
def dictInsert (region_counts : List (String × RegionEntry)) (k : String) (v : RegionEntry) :
    List (String × RegionEntry) :=
  if ∃ x ∈ region_counts, x.1 = k then
    region_counts.map (fun x => if x.1 = k then (k, v) else x)
  else region_counts ++ [(k, v)]

/-- One iteration of the region loop of `count_universities_in_regions`:
a region whose geometry is neither Polygon nor MultiPolygon is skipped
(`continue`); otherwise the universities whose center lies in the region's
ring are collected (the source increments `count` and appends to
`region_universities` in the same pass, so the count is the list's length)
and the entry is stored under the region's name. -/
def region_step (universities : List UFeature) (region_counts : List (String × RegionEntry))
    (region : RegionF) : List (String × RegionEntry) :=
  match region_outer_coords region.geometry with
  | none => region_counts
  | some polygon_coords =>
      let matched := universities.filter (uni_matches polygon_coords)
      dictInsert region_counts region.name ⟨matched.length, matched, region⟩

/-- `count_universities_in_regions`: fold the region loop over an initially
empty dict.  The dict is keyed by region name, so a later region with the
same name silently overwrites an earlier region's entry, as in the
source. -/
def count_universities_in_regions (regions : List RegionF)
    (universities : List UFeature) : List (String × RegionEntry) :=
  regions.foldl (region_step universities) []

/-- Python `int(...)`: truncation of a rational toward zero. -/
def intTrunc (q : ℚ) : ℤ := q.num.tdiv (q.den : ℤ)

/-- `get_color`: the constant light colour `#E6F3FF` = (230, 243, 255) when
the count range is degenerate, otherwise per-channel
`int(light - span * normalized)` with the spans 212, 233, 112 of the
gradient from (230, 243, 255) to the dark endpoint (18, 10, 143). -/
def get_color (count min_count max_count : ℤ) : ℤ × ℤ × ℤ :=
  if max_count = min_count then (230, 243, 255)
  else
    let normalized : ℚ := ((count : ℚ) - (min_count : ℚ)) / ((max_count : ℚ) - (min_count : ℚ))
    (intTrunc (230 - 212 * normalized), intTrunc (243 - 233 * normalized),
      intTrunc (255 - 112 * normalized))

/-- The closed square ring with corners (0,0) and (4,4). -/
def sqRing : List Coord := [(0, 0), (4, 0), (4, 4), (0, 4), (0, 0)]

/-- Two distinct regions over the same square: their polygons overlap. -/
def overlapRegionA : RegionF := ⟨"A", Geometry.polygon [sqRing]⟩

/-- Second region with the same square geometry, under another name. -/
def overlapRegionB : RegionF := ⟨"B", Geometry.polygon [sqRing]⟩

/-- A university whose point lies strictly inside the square. -/
def sampleUni : UFeature := ⟨"U", Geometry.point (1, 2)⟩

/-- A university whose point lies outside the square. -/
def farUni : UFeature := ⟨"F", Geometry.point (9, 9)⟩

end UniversityMap

namespace GeospatialAnalysis

variable {G : Type} {ι : Type} (dist : G → G → ℚ)

/-- A settlement candidate row of the boundary search: its optional `name`
attribute (a missing name — NaN in the data frame — never matches, per
`na=False`). -/
structure Settlement where
  name : Option String
deriving DecidableEq

/-- Characterwise lower-casing, the `case=False` normalization of
`str.contains`. -/
def lowerChars (s : String) : List Char := s.data.map Char.toLower

/-- Substring occurrence on character lists: does `needle` occur as a
contiguous run inside `hay`? -/
def charsContain : List Char → List Char → Bool
  | [], needle => needle.isEmpty
  | c :: t, needle => needle.isPrefixOf (c :: t) || charsContain t needle

/-- One row of `settlements['name'].str.contains(variant, case=False,
na=False)`: case-insensitive substring match, missing names never match. -/
def settlement_matches (variant : String) (s : Settlement) : Bool :=
  match s.name with
  | some n => charsContain (lowerChars n) (lowerChars variant)
  | none => false

/-- The boundary-resolution loop over `irkutsk_variants`: the first variant
whose mask matches any row selects `settlements[mask]` (the matching rows,
in input order) and breaks; when no variant matched, the fallback
`settlements.iloc[[0]]` keeps just the first candidate row. -/
def resolve_boundary (settlements : List Settlement) : List String → List Settlement
  | [] => settlements.take 1
  | variant :: rest =>
      let matched := settlements.filter (settlement_matches variant)
      if 0 < matched.length then matched else resolve_boundary settlements rest

/-- Modelled from the spec: `buffer` and `intersects` are external
geometry primitives.  Per the spec's glossary the radius-`r` buffer is the
polygon offsetting the geometry's boundary outward by `r`, so a road
intersects the buffer around the park iff its planar distance to the park
is at most `r`; the distance primitive itself stays the abstract
parameter `dist`. -/
def intersects_buffer (park road : G) (radius : ℚ) : Bool :=
  decide (dist park road ≤ radius)

/-- `count_unique_roads_in_radius`: filter the roads intersecting the
radius buffer around the park; when any intersect, return the number of
distinct road-type values among them (`nunique`), else 0.  Each road
carries its geometry and its road-type value (the category column always
exists in the source: a fallback synthesizes the constant `'road'`). -/
def count_unique_roads_in_radius (park : G) (roads : List (G × String)) (radius : ℚ) : ℕ :=
  let intersecting_roads := roads.filter (fun road => intersects_buffer dist park road.1 radius)
  if 0 < intersecting_roads.length then ((intersecting_roads.map Prod.snd).dedup).length
  else 0

/-- `Series.min` and `Series.idxmin` jointly: the minimum of a list of
distances together with the index of its first occurrence; `none` on the
empty series (where `idxmin` raises). -/
def minIdx : List ℚ → Option (ℚ × ℕ)
  | [] => none
  | d :: ds =>
    match minIdx ds with
    | none => some (d, 0)
    | some (m, j) => if d ≤ m then some (d, 0) else some (m, j + 1)

/-- `min_distance_to_road`: the distances of every road geometry to the
park, their minimum, and the identifier of the first road attaining it —
the road's `id` attribute (`Sum.inl`) when the roads collection has an
`id` column, else the road's positional index (`Sum.inr`).  An empty roads
collection yields `none` (the source's `idxmin` raises there). -/
def min_distance_to_road (park : G) (roads : List (G × ι)) (has_id_column : Bool) :
    Option (ℚ × (ι ⊕ ℕ)) :=
  match minIdx (roads.map (fun road => dist road.1 park)) with
  | none => none
  | some (d, j) =>
      some (d,
        if has_id_column then
          match roads[j]? with
          | some road => Sum.inl road.2
          | none => Sum.inr j
        else Sum.inr j)

end GeospatialAnalysis

namespace UniversityMap

lemma intTrunc_eq_floor (q : ℚ) (h : 0 ≤ q) : intTrunc q = ⌊q⌋ := by
  rw [intTrunc, Rat.floor_def]
  exact Int.tdiv_eq_ediv (Rat.num_nonneg.mpr h) (by positivity)

/-- C1: `get_geometry_center` returns a Point unchanged; for a Polygon it
returns the arithmetic mean of the outer ring's vertex coordinates (the
vertex-list centroid: `length * center = sum` in each coordinate); for a
MultiPolygon it computes the same on the first constituent polygon only,
ignoring the remaining polygons. -/
theorem get_geometry_center_spec :
    (∀ c : Coord, get_geometry_center (Geometry.point c) = some c) ∧
    (∀ (ring : List Coord) (rest : List (List Coord)), ring ≠ [] →
      ∃ cx cy, get_geometry_center (Geometry.polygon (ring :: rest)) = some (cx, cy) ∧
        (ring.length : ℚ) * cx = (ring.map Prod.fst).sum ∧
        (ring.length : ℚ) * cy = (ring.map Prod.snd).sum) ∧
    (∀ (poly : List (List Coord)) (rest : List (List (List Coord))),
      get_geometry_center (Geometry.multiPolygon (poly :: rest)) =
        get_geometry_center (Geometry.polygon poly)) := by
  refine ⟨fun c => rfl, ?_, fun poly rest => rfl⟩
  intro ring rest hne
  have hlen : ((ring.length : ℚ)) ≠ 0 := by
    simpa using hne
  refine ⟨meanQ (ring.map Prod.fst), meanQ (ring.map Prod.snd), rfl, ?_, ?_⟩
  · rw [meanQ]
    rw [List.length_map] at *
    exact mul_div_cancel₀ _ hlen
  · rw [meanQ]
    rw [List.length_map] at *
    exact mul_div_cancel₀ _ hlen

/-- Witness for C1 at a concrete square ring. -/
theorem get_geometry_center_spec_witness :
    ([((0 : ℚ), (0 : ℚ)), (2, 0), (2, 2), (0, 2), (0, 0)] ≠ []) ∧
    (∃ cx cy,
      get_geometry_center
          (Geometry.polygon [[((0 : ℚ), (0 : ℚ)), (2, 0), (2, 2), (0, 2), (0, 0)]]) =
        some (cx, cy) ∧
      (([((0 : ℚ), (0 : ℚ)), (2, 0), (2, 2), (0, 2), (0, 0)].length : ℚ)) * cx =
        ([((0 : ℚ), (0 : ℚ)), (2, 0), (2, 2), (0, 2), (0, 0)].map Prod.fst).sum ∧
      (([((0 : ℚ), (0 : ℚ)), (2, 0), (2, 2), (0, 2), (0, 0)].length : ℚ)) * cy =
        ([((0 : ℚ), (0 : ℚ)), (2, 0), (2, 2), (0, 2), (0, 0)].map Prod.snd).sum) :=
  ⟨by decide, get_geometry_center_spec.2.1 _ [] (by decide)⟩

/-- C3: for a geometry of any type outside Point, Polygon and MultiPolygon
(for example a LineString) `get_geometry_center` returns no point at all —
the single failure mode the spec names `UnsupportedGeometryKind`. -/
theorem get_geometry_center_unsupported :
    (∀ coords : List Coord, get_geometry_center (Geometry.lineString coords) = none) ∧
    (∀ typeName : String, get_geometry_center (Geometry.other typeName) = none) :=
  ⟨fun _ => rfl, fun _ => rfl⟩

/-- Witness for C3 at a concrete LineString. -/
theorem get_geometry_center_unsupported_witness :
    get_geometry_center (Geometry.lineString [((0 : ℚ), (0 : ℚ)), (1, 1)]) = none :=
  get_geometry_center_unsupported.1 _

/-- C9: with a degenerate range `get_color` is the one fixed light colour
for every count; with `min < max` and a count inside the observed range
(as always holds in the script, where min and max are the minimum and
maximum over the counts) each channel is the linear interpolation between
the light endpoint (230, 243, 255) and the dark endpoint (18, 10, 143) at
parameter `(count - min) / (max - min)`, truncated downward (floor). -/
theorem get_color_spec :
    (∀ count mn : ℤ, get_color count mn mn = (230, 243, 255)) ∧
    (∀ count mn mx : ℤ, mn < mx → mn ≤ count → count ≤ mx →
      get_color count mn mx =
        (⌊(230 : ℚ) + ((18 : ℚ) - 230) * (((count : ℚ) - (mn : ℚ)) / ((mx : ℚ) - (mn : ℚ)))⌋,
         ⌊(243 : ℚ) + ((10 : ℚ) - 243) * (((count : ℚ) - (mn : ℚ)) / ((mx : ℚ) - (mn : ℚ)))⌋,
         ⌊(255 : ℚ) + ((143 : ℚ) - 255) * (((count : ℚ) - (mn : ℚ)) / ((mx : ℚ) - (mn : ℚ)))⌋)) := by
  constructor
  · intro count mn
    simp [get_color]
  · intro count mn mx h hmn hmx
    have hne : mx ≠ mn := h.ne'
    have hpos : (0 : ℚ) < (mx : ℚ) - (mn : ℚ) := by
      rw [sub_pos]
      exact_mod_cast h
    simp only [get_color, if_neg hne]
    set n : ℚ := ((count : ℚ) - (mn : ℚ)) / ((mx : ℚ) - (mn : ℚ)) with hn
    have h0 : 0 ≤ n := by
      apply div_nonneg _ hpos.le
      rw [sub_nonneg]
      exact_mod_cast hmn
    have h1 : n ≤ 1 := by
      rw [hn, div_le_one hpos]
      have : (count : ℚ) ≤ (mx : ℚ) := by exact_mod_cast hmx
      linarith
    have chan : ∀ A B : ℚ, 0 ≤ B → B ≤ A → intTrunc (A - B * n) = ⌊A - B * n⌋ := by
      intro A B hB hBA
      apply intTrunc_eq_floor
      nlinarith
    rw [chan 230 212 (by norm_num) (by norm_num), chan 243 233 (by norm_num) (by norm_num),
      chan 255 112 (by norm_num) (by norm_num)]
    ring_nf

/-- Witness for C9 at count 1 over the range 0..2. -/
theorem get_color_spec_witness :
    ((0 : ℤ) < 2 ∧ (0 : ℤ) ≤ 1 ∧ (1 : ℤ) ≤ 2) ∧
    get_color 1 0 2 =
      (⌊(230 : ℚ) + ((18 : ℚ) - 230) * ((((1 : ℤ) : ℚ) - ((0 : ℤ) : ℚ)) / (((2 : ℤ) : ℚ) - ((0 : ℤ) : ℚ)))⌋,
       ⌊(243 : ℚ) + ((10 : ℚ) - 243) * ((((1 : ℤ) : ℚ) - ((0 : ℤ) : ℚ)) / (((2 : ℤ) : ℚ) - ((0 : ℤ) : ℚ)))⌋,
       ⌊(255 : ℚ) + ((143 : ℚ) - 255) * ((((1 : ℤ) : ℚ) - ((0 : ℤ) : ℚ)) / (((2 : ℤ) : ℚ) - ((0 : ℤ) : ℚ)))⌋) :=
  ⟨⟨by decide, by decide, by decide⟩, get_color_spec.2 1 0 2 (by decide) (by decide) (by decide)⟩

lemma mem_dictInsert_elim {m : List (String × RegionEntry)} {k : String} {v : RegionEntry}
    {e : String × RegionEntry} (he : e ∈ dictInsert m k v) : e ∈ m ∨ e = (k, v) := by
  by_cases h : ∃ x ∈ m, x.1 = k
  · rw [dictInsert, if_pos h] at he
    obtain ⟨x, hx, hfx⟩ := List.mem_map.mp he
    by_cases hk : x.1 = k
    · right
      rw [if_pos hk] at hfx
      exact hfx.symm
    · left
      rw [if_neg hk] at hfx
      rw [← hfx]
      exact hx
  · rw [dictInsert, if_neg h] at he
    rcases List.mem_append.mp he with h1 | h1
    · exact Or.inl h1
    · right
      simpa using h1

lemma mem_dictInsert_self (m : List (String × RegionEntry)) (k : String) (v : RegionEntry) :
    (k, v) ∈ dictInsert m k v := by
  by_cases h : ∃ x ∈ m, x.1 = k
  · rw [dictInsert, if_pos h]
    obtain ⟨x, hx, hk⟩ := h
    exact List.mem_map.mpr ⟨x, hx, by rw [if_pos hk]⟩
  · rw [dictInsert, if_neg h]
    exact List.mem_append.mpr (Or.inr (by simp))

lemma mem_dictInsert_of_ne {m : List (String × RegionEntry)} {k : String} {v : RegionEntry}
    {e : String × RegionEntry} (he : e ∈ m) (hne : e.1 ≠ k) : e ∈ dictInsert m k v := by
  by_cases h : ∃ x ∈ m, x.1 = k
  · rw [dictInsert, if_pos h]
    exact List.mem_map.mpr ⟨e, he, by rw [if_neg hne]⟩
  · rw [dictInsert, if_neg h]
    exact List.mem_append.mpr (Or.inl he)

lemma mem_foldl_region_step (universities : List UFeature) (rs : List RegionF)
    (acc : List (String × RegionEntry)) :
    ∀ e ∈ rs.foldl (region_step universities) acc,
      e ∈ acc ∨ ∃ r polygon_coords, region_outer_coords r.geometry = some polygon_coords ∧
        e = (r.name, ⟨(universities.filter (uni_matches polygon_coords)).length,
            universities.filter (uni_matches polygon_coords), r⟩) := by
  induction rs generalizing acc with
  | nil => intro e he; exact Or.inl he
  | cons r rs ih =>
      intro e he
      rw [List.foldl_cons] at he
      rcases ih (region_step universities acc r) e he with h | h
      · cases hc : region_outer_coords r.geometry with
        | none =>
            have h2 : e ∈ acc := by
              rw [region_step, hc] at h
              exact h
            exact Or.inl h2
        | some polygon_coords =>
            have h2 : e ∈ dictInsert acc r.name
                ⟨(universities.filter (uni_matches polygon_coords)).length,
                  universities.filter (uni_matches polygon_coords), r⟩ := by
              rw [region_step, hc] at h
              exact h
            rcases mem_dictInsert_elim h2 with h3 | h3
            · exact Or.inl h3
            · exact Or.inr ⟨r, polygon_coords, hc, h3⟩
      · exact Or.inr h

lemma foldl_region_step_preserve (universities : List UFeature) (rs : List RegionF)
    (acc : List (String × RegionEntry)) (e : String × RegionEntry)
    (he : e ∈ acc) (hk : ∀ x ∈ rs, x.name ≠ e.1) :
    e ∈ rs.foldl (region_step universities) acc := by
  induction rs generalizing acc with
  | nil => exact he
  | cons r rs ih =>
      rw [List.foldl_cons]
      apply ih
      · cases hc : region_outer_coords r.geometry with
        | none =>
            have h2 : region_step universities acc r = acc := by
              rw [region_step, hc]
            rw [h2]
            exact he
        | some polygon_coords =>
            have h2 : region_step universities acc r = dictInsert acc r.name
                ⟨(universities.filter (uni_matches polygon_coords)).length,
                  universities.filter (uni_matches polygon_coords), r⟩ := by
              rw [region_step, hc]
            rw [h2]
            exact mem_dictInsert_of_ne he (fun hEq => hk r (List.mem_cons_self r rs) hEq.symm)
      · intro x hx
        exact hk x (List.mem_cons_of_mem r hx)

/-- Counterexample to C2: with two overlapping regions "A" and "B" (the
same square) and one university inside both, the aggregator counts the
university in BOTH region entries — the region after the first match also
counts it, so a target does not contribute to at most one region. -/
theorem count_universities_overlap_counterexample :
    count_universities_in_regions [overlapRegionA, overlapRegionB] [sampleUni] =
        [("A", ⟨1, [sampleUni], overlapRegionA⟩), ("B", ⟨1, [sampleUni], overlapRegionB⟩)] ∧
      ¬ ((count_universities_in_regions [overlapRegionA, overlapRegionB] [sampleUni]).countP
          (fun e => decide (sampleUni ∈ e.2.universities)) ≤ 1) := by
  have h1 : point_in_polygon ((1 : ℚ), (2 : ℚ)) sqRing = true := by
    norm_num [point_in_polygon, raySegCross, sqRing, List.rotate, List.countP, List.countP.go]
  have hres : count_universities_in_regions [overlapRegionA, overlapRegionB] [sampleUni] =
      [("A", ⟨1, [sampleUni], overlapRegionA⟩), ("B", ⟨1, [sampleUni], overlapRegionB⟩)] := by
    simp [count_universities_in_regions, region_step, dictInsert, overlapRegionA,
      overlapRegionB, sampleUni, region_outer_coords, uni_matches, get_geometry_center, h1,
      List.filter]
  refine ⟨hres, ?_⟩
  rw [hres]
  decide

/-- C2 as amended: when the regions' names are pairwise distinct (so no
entry is overwritten in the name-keyed dict), a target is counted by EVERY
region whose derived outer ring contains its representative point, not
only by the first matching region — each region with a recognized geometry
contributes an entry whose member list is the full filter of the targets
by containment in that region's ring.  (With duplicate names the dict
keeps only the last same-named region's entry, as the source and spec
note.) -/
theorem count_universities_in_all_matching_regions (regions : List RegionF)
    (universities : List UFeature) (hnames : (regions.map RegionF.name).Nodup) :
    ∀ r ∈ regions, ∀ polygon_coords, region_outer_coords r.geometry = some polygon_coords →
      (r.name, RegionEntry.mk (universities.filter (uni_matches polygon_coords)).length
          (universities.filter (uni_matches polygon_coords)) r) ∈
        count_universities_in_regions regions universities := by
  rw [count_universities_in_regions]
  generalize ([] : List (String × RegionEntry)) = acc
  induction regions generalizing acc with
  | nil => intro r hr; exact absurd hr (List.not_mem_nil r)
  | cons r' rs ih =>
      rw [List.map_cons, List.nodup_cons] at hnames
      obtain ⟨hnotin, hnodup⟩ := hnames
      intro r hr polygon_coords hc
      rw [List.foldl_cons]
      rcases List.mem_cons.mp hr with rfl | hr2
      · apply foldl_region_step_preserve
        · have h2 : region_step universities acc r = dictInsert acc r.name
              ⟨(universities.filter (uni_matches polygon_coords)).length,
                universities.filter (uni_matches polygon_coords), r⟩ := by
            rw [region_step, hc]
          rw [h2]
          exact mem_dictInsert_self _ _ _
        · intro x hx hEq
          apply hnotin
          have hEq2 : x.name = r.name := hEq
          exact hEq2 ▸ List.mem_map_of_mem RegionF.name hx
      · exact ih hnodup (region_step universities acc r') r hr2 polygon_coords hc

/-- Witness for the amended C2: two distinct-named overlapping regions;
region "B" — the second — also contributes an entry listing exactly the
matching targets. -/
theorem count_universities_in_all_matching_regions_witness :
    ((([overlapRegionA, overlapRegionB].map RegionF.name).Nodup) ∧
      overlapRegionB ∈ [overlapRegionA, overlapRegionB]) ∧
    (overlapRegionB.name,
        RegionEntry.mk ([sampleUni].filter (uni_matches sqRing)).length
          ([sampleUni].filter (uni_matches sqRing)) overlapRegionB) ∈
      count_universities_in_regions [overlapRegionA, overlapRegionB] [sampleUni] :=
  ⟨⟨by decide, by decide⟩,
    count_universities_in_all_matching_regions [overlapRegionA, overlapRegionB] [sampleUni]
      (by decide) overlapRegionB (by decide) sqRing rfl⟩

/-- C10: every produced region entry stores a count equal to the length of
its member list, its members form a sublist of the input targets (same
relative order, each input occurrence used at most once), the count never
exceeds the number of targets, and distinct inputs yield distinct
members. -/
theorem region_counts_invariants (regions : List RegionF) (universities : List UFeature) :
    ∀ e ∈ count_universities_in_regions regions universities,
      e.2.count = e.2.universities.length ∧
      e.2.universities.Sublist universities ∧
      e.2.count ≤ universities.length ∧
      (universities.Nodup → e.2.universities.Nodup) := by
  intro e he
  rcases mem_foldl_region_step universities regions [] e he with h | h
  · cases h
  · obtain ⟨r, polygon_coords, hc, rfl⟩ := h
    exact ⟨rfl, List.filter_sublist _, List.length_filter_le _ _,
      fun h => (List.filter_sublist _).nodup h⟩

/-- Witness for C10 on a region containing none of the one target. -/
theorem region_counts_invariants_witness :
    (("A", RegionEntry.mk 0 [] overlapRegionA) ∈
        count_universities_in_regions [overlapRegionA] [farUni]) ∧
    (0 = ([] : List UFeature).length ∧
      ([] : List UFeature).Sublist [farUni] ∧
      0 ≤ [farUni].length ∧
      ([farUni].Nodup → ([] : List UFeature).Nodup)) :=
  ⟨by decide,
    region_counts_invariants [overlapRegionA] [farUni]
      ("A", RegionEntry.mk 0 [] overlapRegionA) (by decide)⟩

end UniversityMap

namespace GeospatialAnalysis

variable {G : Type} {ι : Type} (dist : G → G → ℚ)

/-- C7: the boundary loop honours the variants' priority order — the first
variant matching any candidate selects exactly the candidates whose name
contains it case-insensitively; when no variant matches any candidate the
first candidate of the input is kept; a missing name never matches; and
the two spec scenarios: variants ["Irkutsk", "Иркутск"] over
["Irkutsk City", "Other Town"] resolve to the first candidate, and the
unmatched variant ["Nowhere"] falls back to the candidate at index 0. -/
theorem resolve_boundary_spec :
    (∀ (settlements : List Settlement) (vs1 : List String) (v : String) (vs2 : List String),
        (∀ w ∈ vs1, settlements.filter (settlement_matches w) = []) →
        settlements.filter (settlement_matches v) ≠ [] →
        resolve_boundary settlements (vs1 ++ v :: vs2) =
          settlements.filter (settlement_matches v)) ∧
    (∀ (settlements : List Settlement) (variants : List String),
        (∀ v ∈ variants, settlements.filter (settlement_matches v) = []) →
        resolve_boundary settlements variants = settlements.take 1) ∧
    (∀ variant : String, settlement_matches variant ⟨none⟩ = false) ∧
    (resolve_boundary [⟨some "Irkutsk City"⟩, ⟨some "Other Town"⟩] ["Irkutsk", "Иркутск"] =
      [⟨some "Irkutsk City"⟩]) ∧
    (resolve_boundary [⟨some "Irkutsk City"⟩, ⟨some "Other Town"⟩] ["Nowhere"] =
      [⟨some "Irkutsk City"⟩]) := by
  refine ⟨?_, ?_, fun _ => rfl, by decide, by decide⟩
  · intro settlements vs1 v vs2 hnone hmatch
    induction vs1 with
    | nil =>
        simp only [List.nil_append, resolve_boundary]
        rw [if_pos (List.length_pos.mpr hmatch)]
    | cons w ws ih =>
        have hw : settlements.filter (settlement_matches w) = [] := hnone w (by simp)
        simp only [List.cons_append, resolve_boundary, hw, List.length_nil, lt_irrefl,
          if_false]
        exact ih (fun x hx => hnone x (by simp [hx]))
  · intro settlements variants hnone
    induction variants with
    | nil => rfl
    | cons v rest ih =>
        have hv : settlements.filter (settlement_matches v) = [] := hnone v (by simp)
        simp only [resolve_boundary, hv, List.length_nil, lt_irrefl, if_false]
        exact ih (fun x hx => hnone x (by simp [hx]))

/-- Witness for C7: the second variant is the first to match after an
unmatched first variant, and selects the matching subset. -/
theorem resolve_boundary_spec_witness :
    ((∀ w ∈ ["Nowhere"],
        [Settlement.mk (some "Irkutsk City"), Settlement.mk (some "Other Town")].filter
          (settlement_matches w) = []) ∧
      [Settlement.mk (some "Irkutsk City"), Settlement.mk (some "Other Town")].filter
        (settlement_matches "Irkutsk") ≠ []) ∧
    resolve_boundary [Settlement.mk (some "Irkutsk City"), Settlement.mk (some "Other Town")]
        (["Nowhere"] ++ "Irkutsk" :: []) =
      [Settlement.mk (some "Irkutsk City"), Settlement.mk (some "Other Town")].filter
        (settlement_matches "Irkutsk") :=
  ⟨⟨by decide, by decide⟩,
    resolve_boundary_spec.1 _ ["Nowhere"] "Irkutsk" [] (by decide) (by decide)⟩

lemma minIdx_eq_none_iff (l : List ℚ) : minIdx l = none ↔ l = [] := by
  cases l with
  | nil => simp [minIdx]
  | cons d ds =>
      simp only [minIdx]
      cases minIdx ds with
      | none => simp
      | some p =>
          obtain ⟨m, j⟩ := p
          by_cases hd : d ≤ m
          · simp [hd]
          · simp [hd]

lemma minIdx_spec (l : List ℚ) (m : ℚ) (j : ℕ) (h : minIdx l = some (m, j)) :
    l[j]? = some m ∧ (∀ x ∈ l, m ≤ x) ∧
      (∀ i, i < j → ∀ x, l[i]? = some x → m < x) := by
  induction l generalizing m j with
  | nil => cases h
  | cons d ds ih =>
      simp only [minIdx] at h
      cases hds : minIdx ds with
      | none =>
          rw [hds] at h
          injection h with h
          rw [Prod.mk.injEq] at h
          obtain ⟨rfl, rfl⟩ := h
          have hnil : ds = [] := (minIdx_eq_none_iff ds).mp hds
          subst hnil
          refine ⟨rfl, ?_, ?_⟩
          · intro x hx
            rw [List.mem_singleton] at hx
            exact le_of_eq hx.symm
          · intro i hi
            omega
      | some p =>
          obtain ⟨m', j'⟩ := p
          rw [hds] at h
          have h2 : (if d ≤ m' then some (d, 0) else some (m', j' + 1) : Option (ℚ × ℕ)) =
              some (m, j) := h
          obtain ⟨hget', hmin', hfirst'⟩ := ih m' j' hds
          by_cases hd : d ≤ m'
          · rw [if_pos hd] at h2
            injection h2 with h
            rw [Prod.mk.injEq] at h
            obtain ⟨rfl, rfl⟩ := h
            refine ⟨by simp, ?_, ?_⟩
            · intro x hx
              rw [List.mem_cons] at hx
              rcases hx with rfl | hx
              · exact le_refl _
              · exact le_trans hd (hmin' x hx)
            · intro i hi
              omega
          · rw [if_neg hd] at h2
            injection h2 with h
            rw [Prod.mk.injEq] at h
            obtain ⟨rfl, rfl⟩ := h
            have hdm : m' < d := lt_of_not_le hd
            refine ⟨by rw [List.getElem?_cons_succ]; exact hget', ?_, ?_⟩
            · intro x hx
              rw [List.mem_cons] at hx
              rcases hx with rfl | hx
              · exact le_of_lt hdm
              · exact hmin' x hx
            · intro i hi x hx
              cases i with
              | zero =>
                  simp only [List.getElem?_cons_zero, Option.some.injEq] at hx
                  rw [← hx]
                  exact hdm
              | succ i =>
                  rw [List.getElem?_cons_succ] at hx
                  exact hfirst' i (by omega) x hx

/-- C4: on a non-empty roads collection, `min_distance_to_road` returns the
minimum over all roads of the distance from the road's geometry to the
feature's, together with the winning road's identifier — its `id`
attribute when the collection has an `id` column, else its positional
index — and the winner is the FIRST road attaining the minimum: every road
strictly before it is strictly farther. -/
theorem min_distance_to_road_spec (park : G) (roads : List (G × ι)) (has_id_column : Bool)
    (hne : roads ≠ []) :
    ∃ d j road, roads[j]? = some road ∧
      min_distance_to_road dist park roads has_id_column =
        some (d, if has_id_column then Sum.inl road.2 else Sum.inr j) ∧
      dist road.1 park = d ∧
      (∀ r ∈ roads, d ≤ dist r.1 park) ∧
      (∀ i, i < j → ∀ r, roads[i]? = some r → d < dist r.1 park) := by
  cases hm : minIdx (roads.map (fun road => dist road.1 park)) with
  | none =>
      exfalso
      rw [minIdx_eq_none_iff, List.map_eq_nil_iff] at hm
      exact hne hm
  | some p =>
      obtain ⟨d, j⟩ := p
      obtain ⟨hget, hmin, hfirst⟩ := minIdx_spec _ d j hm
      rw [List.getElem?_map] at hget
      cases hroad : roads[j]? with
      | none => rw [hroad] at hget; cases hget
      | some road =>
          rw [hroad] at hget
          simp only [Option.map_some', Option.some.injEq] at hget
          refine ⟨d, j, road, hroad, ?_, hget, ?_, ?_⟩
          · cases has_id_column with
            | true =>
                have hstep : min_distance_to_road dist park roads true =
                    some (d, match roads[j]? with
                      | some road => Sum.inl road.2
                      | none => Sum.inr j) := by
                  rw [min_distance_to_road, hm]
                  rfl
                rw [hstep, hroad]
                rfl
            | false =>
                have hstep : min_distance_to_road dist park roads false =
                    some (d, Sum.inr j) := by
                  rw [min_distance_to_road, hm]
                  rfl
                rw [hstep]
                rfl
          · intro r hr
            exact hmin _ (List.mem_map_of_mem _ hr)
          · intro i hi r hrr
            apply hfirst i hi
            rw [List.getElem?_map, hrr, Option.map_some']

/-- Witness for C4: two roads with an id column; the nearer road (index 1,
id 6) wins over the farther road before it. -/
theorem min_distance_to_road_spec_witness :
    ([((2 : ℚ), (5 : ℤ)), (1, 6)] ≠ []) ∧
    (∃ d j road, [((2 : ℚ), (5 : ℤ)), (1, 6)][j]? = some road ∧
      min_distance_to_road (fun a b : ℚ => a + b) 0 [((2 : ℚ), (5 : ℤ)), (1, 6)] true =
        some (d, if true then Sum.inl road.2 else Sum.inr j) ∧
      (fun a b : ℚ => a + b) road.1 0 = d ∧
      (∀ r ∈ [((2 : ℚ), (5 : ℤ)), (1, 6)], d ≤ (fun a b : ℚ => a + b) r.1 0) ∧
      (∀ i, i < j → ∀ r, [((2 : ℚ), (5 : ℤ)), (1, 6)][i]? = some r →
        d < (fun a b : ℚ => a + b) r.1 0)) :=
  ⟨by decide, min_distance_to_road_spec (fun a b : ℚ => a + b) 0 _ true (by decide)⟩

/-- C5: `count_unique_roads_in_radius` equals the number of distinct
road-type values among exactly the roads whose geometry intersects the
radius buffer around the feature, and it is 0 iff no road intersects that
buffer. -/
theorem count_unique_roads_in_radius_spec (park : G) (roads : List (G × String)) (radius : ℚ) :
    count_unique_roads_in_radius dist park roads radius =
        ((roads.filter (fun road => intersects_buffer dist park road.1 radius)).map
            Prod.snd).toFinset.card ∧
    (count_unique_roads_in_radius dist park roads radius = 0 ↔
      ∀ road ∈ roads, ¬ (dist park road.1 ≤ radius)) := by
  have hcard : count_unique_roads_in_radius dist park roads radius =
      ((roads.filter (fun road => intersects_buffer dist park road.1 radius)).map
          Prod.snd).toFinset.card := by
    rw [count_unique_roads_in_radius]
    by_cases h : 0 <
        (roads.filter (fun road => intersects_buffer dist park road.1 radius)).length
    · rw [if_pos h, List.card_toFinset]
    · rw [if_neg h]
      have hempty : roads.filter (fun road => intersects_buffer dist park road.1 radius) = [] := by
        rw [← List.length_eq_zero]
        omega
      rw [hempty]
      rfl
  refine ⟨hcard, ?_⟩
  rw [hcard, Finset.card_eq_zero, List.toFinset_eq_empty_iff, List.map_eq_nil_iff,
    List.filter_eq_nil_iff]
  simp [intersects_buffer]

/-- Witness for C5 on two roads, one inside the radius. -/
theorem count_unique_roads_in_radius_spec_witness :
    count_unique_roads_in_radius (fun a b : ℚ => a + b) 0 [(1, "x"), (9, "y")] 5 =
        (([((1 : ℚ), "x"), (9, "y")].filter
            (fun road => intersects_buffer (fun a b : ℚ => a + b) 0 road.1 5)).map
          Prod.snd).toFinset.card ∧
    (count_unique_roads_in_radius (fun a b : ℚ => a + b) 0 [(1, "x"), (9, "y")] 5 = 0 ↔
      ∀ road ∈ [((1 : ℚ), "x"), (9, "y")], ¬ ((fun a b : ℚ => a + b) 0 road.1 ≤ 5)) :=
  count_unique_roads_in_radius_spec (fun a b : ℚ => a + b) 0 [(1, "x"), (9, "y")] 5

/-- C6: with an empty roads collection `min_distance_to_road` fails
(returns `none` — the source raises from `idxmin`, the failure the spec
names `NoRoadsAvailable`) and `count_unique_roads_in_radius` returns 0 for
every feature and every radius. -/
theorem empty_roads_behaviour :
    (∀ (park : G) (has_id_column : Bool),
      min_distance_to_road (ι := ι) dist park [] has_id_column = none) ∧
    (∀ (park : G) (radius : ℚ), count_unique_roads_in_radius dist park [] radius = 0) :=
  ⟨fun _ _ => rfl, fun _ _ => rfl⟩

/-- Witness for C6 at concrete instantiations of the primitives. -/
theorem empty_roads_behaviour_witness :
    min_distance_to_road (fun a b : ℚ => a + b) 0 ([] : List (ℚ × ℤ)) true = none ∧
    count_unique_roads_in_radius (fun a b : ℚ => a + b) 0 ([] : List (ℚ × String)) 100 = 0 :=
  ⟨(empty_roads_behaviour (ι := ℤ) (fun a b : ℚ => a + b)).1 0 true,
    (empty_roads_behaviour (ι := ℤ) (fun a b : ℚ => a + b)).2 0 100⟩

/-- C8: for a fixed feature and fixed roads, the road-type diversity count
is monotone non-decreasing in the radius. -/
theorem count_unique_roads_monotone (park : G) (roads : List (G × String)) (r1 r2 : ℚ)
    (h : r1 ≤ r2) :
    count_unique_roads_in_radius dist park roads r1 ≤
      count_unique_roads_in_radius dist park roads r2 := by
  have hsub : List.Sublist
      (roads.filter (fun road => intersects_buffer dist park road.1 r1))
      (roads.filter (fun road => intersects_buffer dist park road.1 r2)) := by
    apply List.monotone_filter_right
    intro a ha
    simp only [intersects_buffer, decide_eq_true_eq] at ha ⊢
    exact le_trans ha h
  rw [count_unique_roads_in_radius, count_unique_roads_in_radius]
  by_cases h1 : 0 < (roads.filter (fun road => intersects_buffer dist park road.1 r1)).length
  · rw [if_pos h1, if_pos (lt_of_lt_of_le h1 hsub.length_le), ← List.card_toFinset,
      ← List.card_toFinset]
    apply Finset.card_le_card
    intro x hx
    rw [List.mem_toFinset] at hx ⊢
    exact (hsub.map Prod.snd).subset hx
  · rw [if_neg h1]
    exact Nat.zero_le _

/-- Witness for C8 with radii 3 ≤ 5. -/
theorem count_unique_roads_monotone_witness :
    ((3 : ℚ) ≤ 5) ∧
    count_unique_roads_in_radius (fun a b : ℚ => a + b) 0 [(1, "x"), (9, "y")] 3 ≤
      count_unique_roads_in_radius (fun a b : ℚ => a + b) 0 [(1, "x"), (9, "y")] 5 :=
  ⟨by decide, count_unique_roads_monotone (fun a b : ℚ => a + b) 0 [(1, "x"), (9, "y")] 3 5
    (by decide)⟩

end GeospatialAnalysis
